import Mathlib

/-!
Verification of the DiffuserCam lensless-imaging reconstruction core.

This file gives a shallow embedding, in Lean 4, of the numeric core of the
repository (the real-FFT convolution operator and APGD wrapper of
`lensless/apgd.py`, the closed-form Tikhonov/Bayer solver of
`lensless/recon/tikhonov.py`, and the training-loop step and metrics
bookkeeping of `lensless/recon/utils.py`), and proves or refutes the frozen
specification claims about that core.

Conventions of the embedding:
* real-valued image data is represented over `ℚ` (exact arithmetic) except for
  the Tikhonov solver, which needs `ℝ` for the SVD-based minimizer argument;
* an `H × W × C` numpy array becomes a function `Fin H → Fin W → Fin C → ℚ`;
* the frequency-domain pipeline `irfft2 (rfft2 u * rfft2 h)` is embedded by its
  exact mathematical value, the 2-D circular convolution of `u` and `h` on the
  padded canvas (exact for the sizes used in the theorems below, where the
  real-FFT axis has even length so `irfft2`'s default output length matches);
* fallible Python code is embedded in `Except PyError`.
-/

set_option maxHeartbeats 1000000

namespace DiffuserCam

open Matrix

/-- Python exceptions that the embedded code can raise. -/
inductive PyError where
  | typeError
  | valueError
  | attributeError
  | otherError
  deriving DecidableEq, Repr

/-! ### Bayer demosaicing (`lensless/recon/tikhonov.py`, `bayer2rgb`)

`bayer2rgb` builds an RGB array from the four Bayer channels
(order: blue, green-blue, green-red, red) before an optional normalization:
`X_rgb[:,:,2] = X_bayer[:,:,0]`, `X_rgb[:,:,1] = 0.5*(X_bayer[:,:,1] +
X_bayer[:,:,2])`, `X_rgb[:,:,0] = X_bayer[:,:,3]`. -/

/-- Embeds the pre-normalization part of `bayer2rgb` (tikhonov.py lines 38-41):
the constructed RGB array, with RGB channel order `0 = red, 1 = green,
2 = blue`. -/
def bayer2rgbRaw {h w : ℕ} (X : Fin h → Fin w → Fin 4 → ℚ) :
    Fin h → Fin w → Fin 3 → ℚ := fun i j c =>
  if (c : ℕ) = 2 then X i j 0
  else if (c : ℕ) = 1 then (1 / 2) * (X i j 1 + X i j 2)
  else X i j 3

/-! ### APGD image formation (`lensless/apgd.py`, `APGD._form_image`)

`_form_image` reshapes the flat iterand to the original PSF shape and clips
negative entries to zero.  The surrounding `apply(n_iter)` loop lives in
`lensless/recon/__init__.py`, which is not part of the analysed sources; it is
modelled from the spec below (`apgdApply`). -/

/-- Row-major (C-order) flat index of the `(i, j, c)` entry of an
`H × W × C` array, as used by `numpy.reshape`. -/
def flatIdx {H W C : ℕ} (i : Fin H) (j : Fin W) (c : Fin C) : Fin (H * W * C) :=
  ⟨((i : ℕ) * W + (j : ℕ)) * C + (c : ℕ), by
    have hij : (i : ℕ) * W + (j : ℕ) < H * W := by
      calc (i : ℕ) * W + (j : ℕ) < (i : ℕ) * W + W := Nat.add_lt_add_left j.isLt _
        _ = ((i : ℕ) + 1) * W := by ring
        _ ≤ H * W := Nat.mul_le_mul_right W (Nat.succ_le_of_lt i.isLt)
    calc ((i : ℕ) * W + (j : ℕ)) * C + (c : ℕ)
        < ((i : ℕ) * W + (j : ℕ)) * C + C := Nat.add_lt_add_left c.isLt _
      _ = (((i : ℕ) * W + (j : ℕ)) + 1) * C := by ring
      _ ≤ H * W * C := Nat.mul_le_mul_right C (Nat.succ_le_of_lt hij)⟩

/-- Embeds `APGD._form_image` (apgd.py lines 252-255): reshape the flat
estimate to the original `(H, W, C)` PSF shape and set negative entries to
zero (`image[image < 0] = 0`). -/
def formImage {H W C : ℕ} (v : Fin (H * W * C) → ℚ) :
    Fin H → Fin W → Fin C → ℚ := fun i j c =>
  if v (flatIdx i j c) < 0 then 0 else v (flatIdx i j c)

/-- Modelled from the spec: `ReconstructionAlgorithm.apply(n_iter)`
(`lensless/recon/__init__.py`, not among the analysed sources) "runs
`update()` n_iter times ... and returns the final non-negative-clipped image
estimate reshaped to the original PSF spatial shape".  The solver state and
its one-step update are abstract; `est` reads the current flat image estimate
from the state. -/
def apgdApply {S : Type} {H W C : ℕ} (step : S → S) (est : S → Fin (H * W * C) → ℚ)
    (n : ℕ) (s : S) : Fin H → Fin W → Fin C → ℚ :=
  formImage (est (step^[n] s))

/-! ### APGD proximal-penalty selection (`lensless/apgd.py`, `APGD.__init__`)

Lines 174-185 select the proximal penalty.  The relevant behaviours of the
dynamic Python code are captured by a closed inductive of identifier kinds:
a string other than `"l1"`/`"nonneg"` (including `"l2"`) reaches
`prox_penalty(dim=...)` and raises `TypeError` (a `str` is not callable,
uncaught); a functional whose construction raises `ValueError` is caught by
`except ValueError: print("Unexpected prior.")`, leaving `_prox_penalty`
unassigned; any other exception propagates. -/

/-- Kinds of `prox_penalty` argument passed to `APGD.__init__`. -/
inductive ProxPenaltyId where
  | nonePenalty        -- `None`
  | l1                 -- the string `"l1"` (`APGDPriors.L1`)
  | nonneg             -- the string `"nonneg"` (`APGDPriors.NONNEG`)
  | otherString        -- any other string, e.g. `"l2"` or an unknown name
  | functionalOk       -- a proximable functional whose construction succeeds
  | functionalValueError -- a functional whose construction raises `ValueError`
  | functionalOtherError -- a functional whose construction raises another error
  deriving DecidableEq, Repr

/-- The proximal penalty term stored in `self._prox_penalty` when assignment
happens, weighted by `prox_lambda`. -/
inductive ProxTerm where
  | l1Term (lam : ℚ)
  | nonnegTerm (lam : ℚ)
  | customTerm (lam : ℚ)
  deriving DecidableEq, Repr

/-- Embeds the `prox_penalty` branch of `APGD.__init__` (apgd.py lines
174-185).  The result distinguishes an error signalled to the caller
(`Except.error`), successful construction with `_prox_penalty` assigned
(`Except.ok (some attr)` where `attr` is `none` for `None`), and successful
construction with `_prox_penalty` left UNASSIGNED (`Except.ok none`), which
is what the `except ValueError` branch produces. -/
def proxPenaltyInit (lam : ℚ) : ProxPenaltyId → Except PyError (Option (Option ProxTerm))
  | .nonePenalty => .ok (some none)
  | .l1 => .ok (some (some (.l1Term lam)))
  | .nonneg => .ok (some (some (.nonnegTerm lam)))
  | .otherString => .error .typeError
  | .functionalOk => .ok (some (some (.customTerm lam)))
  | .functionalValueError => .ok none
  | .functionalOtherError => .error .otherError

/-! ### Trainer gradient step (`lensless/recon/utils.py`, `Trainer.train_epoch`)

Lines 594-641 of `utils.py`, after `loss_v.backward()`: gradient clipping is
applied to `self.mask.parameters()` and `self.recon.parameters()` whenever
`clip_grad_norm` is set (lines 601-603); then, when `skip_NAN` is set, the
recon gradients and then `self.mask.parameters()` are scanned for NaN (lines
606-616) and the step is skipped (`continue`) if any is found; otherwise
`optimizer.step()` updates the parameters.  Both accesses to
`self.mask.parameters()` are unconditional on `self.use_mask`: with
`mask = None` they raise `AttributeError`.

A parameter is abstracted to its value and a flag telling whether its
gradient contains NaN (gradient clipping rescales gradients, which preserves
that flag, and never changes parameter values). -/

/-- A trainable parameter: current value and whether its gradient is NaN. -/
structure TParam where
  val : ℚ
  gradNaN : Bool
  deriving DecidableEq, Repr

/-- Whether any parameter of the list has a NaN gradient
(the `for param in ...: if torch.isnan(param.grad).any()` loops). -/
def anyGradNaN (ps : List TParam) : Bool := ps.any (·.gradNaN)

/-- Embeds one post-backward training step of `Trainer.train_epoch`
(utils.py lines 601-641): gradient clipping, the `skip_NAN` scan, and the
optimizer step.  `maskParams = none` embeds a trainer constructed with
`mask=None`; `optStep` (resp. `maskStep`) abstracts the parameter update of
`optimizer.step()` (resp. `mask.update_mask()`).  Returns the updated
parameters, or the raised exception. -/
def trainStepGrad (skipNAN : Bool) (clipGrad : Option ℚ) (optStep maskStep : ℚ → ℚ)
    (reconParams : List TParam) (maskParams : Option (List TParam)) :
    Except PyError (List TParam × Option (List TParam)) :=
  -- lines 601-603: `clip_grad_norm_(self.mask.parameters(), ...)` runs first
  match clipGrad, maskParams with
  | some _, none => .error .attributeError
  | _, _ =>
    if skipNAN then
      -- lines 609-612: scan recon gradients
      let reconIsNaN := anyGradNaN reconParams
      -- lines 613-616: scan `self.mask.parameters()` (unconditional on mask)
      match maskParams with
      | none => .error .attributeError
      | some mps =>
        if reconIsNaN || anyGradNaN mps then
          -- lines 617-625: print and `continue`, parameters untouched
          .ok (reconParams, some mps)
        else
          .ok (reconParams.map fun p => ⟨optStep p.val, p.gradNaN⟩,
               some (mps.map fun p => ⟨maskStep p.val, p.gradNaN⟩))
    else
      .ok (reconParams.map fun p => ⟨optStep p.val, p.gradNaN⟩,
           maskParams.map fun mps => mps.map fun p => ⟨maskStep p.val, p.gradNaN⟩)

/-! ### Real-FFT convolution operator (`lensless/apgd.py`, `RealFFTConvolve2D`)

The operator pads the PSF and the input into a common padded canvas of
spatial shape `next_fast_len(2H-1) × next_fast_len(2W-1)`, multiplies in
frequency domain by the precomputed filter spectrum (`_H`, or its conjugate
`_Hadj` for `adjoint`), inverse-transforms, applies `ifftshift` and crops
back to the `(H, W)` footprint.  Multiplication of forward spectra followed
by the inverse transform is embedded by its exact value on the padded canvas:
circular convolution (`cconv2`) for `__call__` and circular cross-correlation
(`ccorr2`) for `adjoint`. -/

/-- Modelled from the semantics of `scipy.fftpack.next_fast_len`: whether `n`
is a 5-smooth ("fast FFT") length, i.e. `n ≠ 0` and every prime factor of `n`
is in `{2, 3, 5}` (equivalently `n` divides `30 ^ n`). -/
def isFastLen (n : ℕ) : Bool := n != 0 && 30 ^ n % n == 0

/-- Linear search for the next fast length, with explicit fuel. -/
def nextFastLenAux : ℕ → ℕ → ℕ
  | 0, m => m
  | fuel + 1, m => if isFastLen m then m else nextFastLenAux fuel (m + 1)

/-- Modelled from the semantics of `scipy.fftpack.next_fast_len`: the smallest
5-smooth integer `≥ n` (the fuel `2 ^ n` always suffices, since some power of
two in `[n, 2n]` is 5-smooth). -/
def next_fast_len (n : ℕ) : ℕ := nextFastLenAux (2 ^ n) n

theorem le_nextFastLenAux (fuel : ℕ) : ∀ m, m ≤ nextFastLenAux fuel m := by
  induction fuel with
  | zero => intro m; exact le_refl m
  | succ fuel ih =>
    intro m
    unfold nextFastLenAux
    split
    · exact le_refl m
    · exact le_trans (Nat.le_succ m) (ih (m + 1))

theorem le_next_fast_len (n : ℕ) : n ≤ next_fast_len n :=
  le_nextFastLenAux (2 ^ n) n

theorem filterDim_le_nfl (H : ℕ) : H ≤ next_fast_len (2 * H - 1) := by
  rcases Nat.eq_zero_or_pos H with h | h
  · simp [h]
  · exact le_trans (by omega) (le_next_fast_len (2 * H - 1))

theorem windowFits {H ph : ℕ} (h : H ≤ ph) : (ph - H) / 2 + H ≤ ph := by
  have := Nat.div_le_self (ph - H) 2
  omega

/-- State of a `RealFFTConvolve2D` instance built from an `H × W × C` filter:
padded spatial shape (`_padded_shape`), cropping/padding start indices
(`_start_idx`; the end indices are `start + filter dim`), the precomputed
filter spectrum `_H` (stored as the padded kernel it is the spectrum of), and
the shared padded scratch buffer `_padded_data`.  The proofs `winH`/`winW`
record that the filter footprint window fits in the padded canvas. -/
structure RealFFTConvolve2D (R : Type) (H W C : ℕ) where
  ph : ℕ
  pw : ℕ
  startH : ℕ
  startW : ℕ
  winH : startH + H ≤ ph
  winW : startW + W ≤ pw
  Hfreq : Fin ph → Fin pw → Fin C → R
  padded_data : Fin ph → Fin pw → Fin C → R

/-- Write an `H × W × C` array into the `[start, start + dim)` window of a
padded canvas, leaving all other entries of `base` untouched (the slice
assignment `padded[start0:end0, start1:end1] = v`). -/
def writeWindow {R : Type} {H W C ph pw : ℕ} (sH sW : ℕ)
    (hH : sH + H ≤ ph) (hW : sW + W ≤ pw)
    (x : Fin H → Fin W → Fin C → R) (base : Fin ph → Fin pw → Fin C → R) :
    Fin ph → Fin pw → Fin C → R := fun i j c =>
  if h : sH ≤ (i : ℕ) ∧ (i : ℕ) < sH + H ∧ sW ≤ (j : ℕ) ∧ (j : ℕ) < sW + W then
    x ⟨(i : ℕ) - sH, by omega⟩ ⟨(j : ℕ) - sW, by omega⟩ c
  else base i j c

/-- Crop the `[start, start + dim)` window out of a padded canvas
(`RealFFTConvolve2D._crop`). -/
def cropWindow {R : Type} {H W C ph pw : ℕ} (sH sW : ℕ)
    (hH : sH + H ≤ ph) (hW : sW + W ≤ pw)
    (u : Fin ph → Fin pw → Fin C → R) : Fin H → Fin W → Fin C → R := fun a b c =>
  u ⟨sH + (a : ℕ), by have := a.isLt; omega⟩ ⟨sW + (b : ℕ), by have := b.isLt; omega⟩ c

/-- 2-D circular convolution on the padded canvas, per channel: the exact
value of `irfft2(rfft2 u * K)` where `K` is the spectrum of the kernel `k`
(`Fin` addition and subtraction wrap around). -/
def cconv2 {R : Type} [CommRing R] {ph pw C : ℕ} (k u : Fin ph → Fin pw → Fin C → R) :
    Fin ph → Fin pw → Fin C → R := fun a b c =>
  ∑ i, ∑ j, u i j c * k (a - i) (b - j) c

/-- 2-D circular cross-correlation on the padded canvas, per channel: the
exact value of `irfft2(rfft2 u * conj K)`. -/
def ccorr2 {R : Type} [CommRing R] {ph pw C : ℕ} (k u : Fin ph → Fin pw → Fin C → R) :
    Fin ph → Fin pw → Fin C → R := fun a b c =>
  ∑ i, ∑ j, u i j c * k (i - a) (j - b) c

/-- `scipy.fft.ifftshift` on the two spatial axes:
`ifftshift(u)[a] = u[(a + ⌊n/2⌋) % n]` on each axis. -/
def ifftshift2 {R : Type} {ph pw C : ℕ} (u : Fin ph → Fin pw → Fin C → R) :
    Fin ph → Fin pw → Fin C → R := fun a b c =>
  u ⟨((a : ℕ) + ph / 2) % ph, Nat.mod_lt _ (Nat.lt_of_le_of_lt (Nat.zero_le _) a.isLt)⟩
    ⟨((b : ℕ) + pw / 2) % pw, Nat.mod_lt _ (Nat.lt_of_le_of_lt (Nat.zero_le _) b.isLt)⟩ c

/-- Embeds `RealFFTConvolve2D.__init__`: padded shape `next_fast_len(2·dim-1)`
per spatial axis, start indices `(padded - dim) // 2`, the precomputed filter
spectrum (as the zero-padded kernel), and the zero-initialized scratch buffer
`_padded_data = np.zeros(padded_shape)`. -/
def RealFFTConvolve2D.construct {R : Type} [CommRing R] {H W C : ℕ}
    (filter : Fin H → Fin W → Fin C → R) : RealFFTConvolve2D R H W C :=
  { ph := next_fast_len (2 * H - 1)
    pw := next_fast_len (2 * W - 1)
    startH := (next_fast_len (2 * H - 1) - H) / 2
    startW := (next_fast_len (2 * W - 1) - W) / 2
    winH := windowFits (filterDim_le_nfl H)
    winW := windowFits (filterDim_le_nfl W)
    Hfreq := writeWindow _ _ (windowFits (filterDim_le_nfl H))
      (windowFits (filterDim_le_nfl W)) filter (fun _ _ _ => 0)
    padded_data := fun _ _ _ => 0 }

/-- Embeds `RealFFTConvolve2D.__call__` (apgd.py lines 79-90): write the input
into the footprint window of the shared scratch buffer, circularly convolve
with the filter kernel (frequency multiplication by `_H`), `ifftshift`, crop;
returns the mutated operator together with the output image. -/
def RealFFTConvolve2D.call {R : Type} [CommRing R] {H W C : ℕ}
    (o : RealFFTConvolve2D R H W C) (x : Fin H → Fin W → Fin C → R) :
    RealFFTConvolve2D R H W C × (Fin H → Fin W → Fin C → R) :=
  let pd := writeWindow o.startH o.startW o.winH o.winW x o.padded_data
  ({ o with padded_data := pd },
    cropWindow o.startH o.startW o.winH o.winW (ifftshift2 (cconv2 o.Hfreq pd)))

/-- Embeds `RealFFTConvolve2D.adjoint` (apgd.py lines 92-102): as `__call__`
but multiplying by the conjugate spectrum `_Hadj`, i.e. circular
cross-correlation with the kernel. -/
def RealFFTConvolve2D.adjoint {R : Type} [CommRing R] {H W C : ℕ}
    (o : RealFFTConvolve2D R H W C) (y : Fin H → Fin W → Fin C → R) :
    RealFFTConvolve2D R H W C × (Fin H → Fin W → Fin C → R) :=
  let pd := writeWindow o.startH o.startW o.winH o.winW y o.padded_data
  ({ o with padded_data := pd },
    cropWindow o.startH o.startW o.winH o.winW (ifftshift2 (ccorr2 o.Hfreq pd)))

/-- Inner product of two `H × W × C` images (the dot product of the raveled
vectors of length `H·W·C`). -/
def dotIm {R : Type} [CommRing R] {H W C : ℕ} (a b : Fin H → Fin W → Fin C → R) : R :=
  ∑ i, ∑ j, ∑ c, a i j c * b i j c

/-- A concrete 2 × 4 × 1 PSF (a single bright pixel at the corner).  Its
padded canvas is `next_fast_len(3) × next_fast_len(7) = 3 × 8`: the padded
height is odd, where `ifftshift` is not its own inverse. -/
def psf2x4 : Fin 2 → Fin 4 → Fin 1 → ℤ := fun i j _ => if i = 0 ∧ j = 0 then 1 else 0

/-- Concrete input image for the forward pass. -/
def imgX : Fin 2 → Fin 4 → Fin 1 → ℤ := fun i j _ => if i = 1 ∧ j = 2 then 1 else 0

/-- Concrete input image for the adjoint pass. -/
def imgY : Fin 2 → Fin 4 → Fin 1 → ℤ := fun i j _ => if i = 0 ∧ j = 0 then 1 else 0

/-! ### Sequences of operator calls (for the frame-effect claim C10) -/

/-- One invocation on a `RealFFTConvolve2D` instance: forward or adjoint. -/
inductive ConvCall (R : Type) (H W C : ℕ) where
  | call (x : Fin H → Fin W → Fin C → R)
  | adjoint (y : Fin H → Fin W → Fin C → R)

/-- Run a sequence of invocations, threading the mutable operator state and
collecting the outputs. -/
def runCalls {R : Type} [CommRing R] {H W C : ℕ} (o : RealFFTConvolve2D R H W C) :
    List (ConvCall R H W C) → RealFFTConvolve2D R H W C × List (Fin H → Fin W → Fin C → R)
  | [] => (o, [])
  | .call x :: ops =>
    let r := o.call x
    let rest := runCalls r.1 ops
    (rest.1, r.2 :: rest.2)
  | .adjoint y :: ops =>
    let r := o.adjoint y
    let rest := runCalls r.1 ops
    (rest.1, r.2 :: rest.2)

/-- Every entry of the shared padded scratch buffer outside the central
filter-footprint window `[start_idx, end_idx)` is zero. -/
def outsideZero {R : Type} [CommRing R] {H W C : ℕ} (o : RealFFTConvolve2D R H W C) : Prop :=
  ∀ (i : Fin o.ph) (j : Fin o.pw) (c : Fin C),
    ¬(o.startH ≤ (i : ℕ) ∧ (i : ℕ) < o.startH + H ∧
      o.startW ≤ (j : ℕ) ∧ (j : ℕ) < o.startW + W) →
    o.padded_data i j c = 0

/-- The result `__call__` would compute from a fresh all-zero padded canvas. -/
def callPure {R : Type} [CommRing R] {H W C : ℕ} (o : RealFFTConvolve2D R H W C)
    (x : Fin H → Fin W → Fin C → R) : Fin H → Fin W → Fin C → R :=
  cropWindow o.startH o.startW o.winH o.winW (ifftshift2 (cconv2 o.Hfreq
    (writeWindow o.startH o.startW o.winH o.winW x (fun _ _ _ => 0))))

/-- The result `adjoint` would compute from a fresh all-zero padded canvas. -/
def adjointPure {R : Type} [CommRing R] {H W C : ℕ} (o : RealFFTConvolve2D R H W C)
    (y : Fin H → Fin W → Fin C → R) : Fin H → Fin W → Fin C → R :=
  cropWindow o.startH o.startW o.winH o.winW (ifftshift2 (ccorr2 o.Hfreq
    (writeWindow o.startH o.startW o.winH o.winW y (fun _ _ _ => 0))))

/-- The pure (fresh-canvas) result of one invocation. -/
def pureResult {R : Type} [CommRing R] {H W C : ℕ} (o : RealFFTConvolve2D R H W C) :
    ConvCall R H W C → (Fin H → Fin W → Fin C → R)
  | .call x => callPure o x
  | .adjoint y => adjointPure o y

theorem writeWindow_outsideZero {R : Type} [CommRing R] {H W C ph pw : ℕ} (sH sW : ℕ)
    (hH : sH + H ≤ ph) (hW : sW + W ≤ pw)
    (x : Fin H → Fin W → Fin C → R) (base : Fin ph → Fin pw → Fin C → R)
    (hbase : ∀ (i : Fin ph) (j : Fin pw) (c : Fin C),
      ¬(sH ≤ (i : ℕ) ∧ (i : ℕ) < sH + H ∧ sW ≤ (j : ℕ) ∧ (j : ℕ) < sW + W) →
      base i j c = 0) :
    writeWindow sH sW hH hW x base = writeWindow sH sW hH hW x (fun _ _ _ => 0) := by
  funext i j c
  unfold writeWindow
  split
  · rfl
  · next h => exact hbase i j c h

theorem call_step {R : Type} [CommRing R] {H W C : ℕ} (o : RealFFTConvolve2D R H W C)
    (x : Fin H → Fin W → Fin C → R) (h : outsideZero o) :
    outsideZero (o.call x).1 ∧ (o.call x).2 = callPure o x := by
  constructor
  · intro i j c hout
    show writeWindow o.startH o.startW o.winH o.winW x o.padded_data i j c = 0
    unfold writeWindow
    split
    · next hin => exact absurd hin hout
    · exact h i j c hout
  · show cropWindow o.startH o.startW o.winH o.winW (ifftshift2 (cconv2 o.Hfreq
      (writeWindow o.startH o.startW o.winH o.winW x o.padded_data))) = callPure o x
    rw [writeWindow_outsideZero o.startH o.startW o.winH o.winW x o.padded_data h]
    rfl

theorem adjoint_step {R : Type} [CommRing R] {H W C : ℕ} (o : RealFFTConvolve2D R H W C)
    (y : Fin H → Fin W → Fin C → R) (h : outsideZero o) :
    outsideZero (o.adjoint y).1 ∧ (o.adjoint y).2 = adjointPure o y := by
  constructor
  · intro i j c hout
    show writeWindow o.startH o.startW o.winH o.winW y o.padded_data i j c = 0
    unfold writeWindow
    split
    · next hin => exact absurd hin hout
    · exact h i j c hout
  · show cropWindow o.startH o.startW o.winH o.winW (ifftshift2 (ccorr2 o.Hfreq
      (writeWindow o.startH o.startW o.winH o.winW y o.padded_data))) = adjointPure o y
    rw [writeWindow_outsideZero o.startH o.startW o.winH o.winW y o.padded_data h]
    rfl

theorem runCalls_pure {R : Type} [CommRing R] {H W C : ℕ} (ops : List (ConvCall R H W C))
    (o : RealFFTConvolve2D R H W C) (h : outsideZero o) :
    outsideZero (runCalls o ops).1 ∧ (runCalls o ops).2 = ops.map (pureResult o) := by
  induction ops generalizing o with
  | nil => exact ⟨h, rfl⟩
  | cons op ops ih =>
    cases op with
    | call x =>
      obtain ⟨h1, h2⟩ := call_step o x h
      obtain ⟨ih1, ih2⟩ := ih (o.call x).1 h1
      refine ⟨ih1, ?_⟩
      show (o.call x).2 :: (runCalls (o.call x).1 ops).2
          = callPure o x :: ops.map (pureResult o)
      rw [h2, ih2]
      rfl
    | adjoint y =>
      obtain ⟨h1, h2⟩ := adjoint_step o y h
      obtain ⟨ih1, ih2⟩ := ih (o.adjoint y).1 h1
      refine ⟨ih1, ?_⟩
      show (o.adjoint y).2 :: (runCalls (o.adjoint y).1 ops).2
          = adjointPure o y :: ops.map (pureResult o)
      rw [h2, ih2]
      rfl

/-! ### APGD solver state (`lensless/apgd.py`, `APGD.set_data` / `reset`)

`set_data` builds the Pycsou problem from the bound measurement and creates a
fresh Pycsou APGD solver (`APGD_pyc(dim=..., F=..., G=..., acceleration=...)`)
plus its iterate generator; `reset` re-zeroes `_image_est` and, when a solver
exists, calls `self._apgd.reset()` and recreates the generator; `_update`
advances the generator one step and copies the Pycsou iterand into
`_image_est`.  The Pycsou solver itself (external library) is modelled from
the spec: its state is the iterand together with auxiliary acceleration state
(momentum point and step count), created at an initial point determined by
the problem, advanced by a deterministic per-iteration map, and restored to
the initial point by `reset()` ("re-zeroes the iterand and auxiliary
state"). -/

/-- Modelled from the spec: a Pycsou `APGD` solver instance over iterand
vectors `V`: the per-iteration map (determined by the problem `F`, `G` and
the acceleration scheme), the current state (iterand, momentum point, step
count) and the stored initial state. -/
structure PycAPGD (V : Type) where
  stepFn : V × V × ℕ → V × V × ℕ
  state : V × V × ℕ
  init : V × V × ℕ

/-- Construction of the Pycsou solver from a problem: start at its initial
state. -/
def PycAPGD.mk0 {V : Type} (p : ((V × V × ℕ) → V × V × ℕ) × (V × V × ℕ)) :
    PycAPGD V := ⟨p.1, p.2, p.2⟩

/-- One step of the iterate generator (`next(self._gen)`). -/
def PycAPGD.next {V : Type} (a : PycAPGD V) : PycAPGD V :=
  { a with state := a.stepFn a.state }

/-- Modelled from the spec: `APGD_pyc.reset()` restores the initial iterand
and auxiliary state. -/
def PycAPGD.reset {V : Type} (a : PycAPGD V) : PycAPGD V :=
  { a with state := a.init }

/-- State of the wrapper `APGD` solver with PSF pixel count `n`: the bound
measurement (`_data`, flattened), the Pycsou solver (`_apgd`, `None` until
`set_data`), and the running image estimate (`_image_est`). -/
structure APGDState (n : ℕ) where
  data : Option (Fin n → ℚ)
  apgd : Option (PycAPGD (Fin n → ℚ))
  image_est : Fin n → ℚ

/-- A freshly constructed solver: no data, no Pycsou solver, zero estimate
(the base-class constructor ends in `reset()`, which zeroes `_image_est`;
modelled from the spec for the base class, with `reset` as in apgd.py). -/
def APGDState.fresh (n : ℕ) : APGDState n := ⟨none, none, fun _ => 0⟩

/-- Embeds `APGD.set_data` (apgd.py lines 189-226): bind the data and create
the Pycsou solver and generator for the problem built from the data.
`problem` abstracts the construction of the per-iteration map and initial
state from the measurement (it is determined by the PSF, penalties and
acceleration configuration, which the claim fixes). -/
def APGDState.set_data {n : ℕ}
    (problem : (Fin n → ℚ) → (((Fin n → ℚ) × (Fin n → ℚ) × ℕ → (Fin n → ℚ) × (Fin n → ℚ) × ℕ)
      × ((Fin n → ℚ) × (Fin n → ℚ) × ℕ)))
    (d : Fin n → ℚ) (s : APGDState n) : APGDState n :=
  { s with data := some d, apgd := some (PycAPGD.mk0 (problem d)) }

/-- Embeds `APGD.reset` (apgd.py lines 228-236): zero `_image_est`; if a
Pycsou solver exists, reset it and recreate the generator. -/
def APGDState.reset {n : ℕ} (s : APGDState n) : APGDState n :=
  { s with image_est := fun _ => 0, apgd := s.apgd.map PycAPGD.reset }

/-- Embeds `APGD._update` (apgd.py lines 248-250): advance the generator one
step and copy the Pycsou iterand into `_image_est` (identity when no solver
is bound, a case the claims never exercise). -/
def APGDState.update {n : ℕ} (s : APGDState n) : APGDState n :=
  match s.apgd with
  | none => s
  | some a =>
    let a2 := a.next
    { s with apgd := some a2, image_est := a2.state.1 }

/-- `apply(k)` on the wrapper: run `update` `k` times, then form the output
image by clipping negatives (`_form_image`; the reshape to the PSF spatial
shape is the bijection `flatIdx`, so equality of flat outputs is equality of
the returned images). -/
def APGDState.applyN {n : ℕ} (k : ℕ) (s : APGDState n) : Fin n → ℚ :=
  fun i =>
    if (APGDState.update^[k] s).image_est i < 0 then 0
    else (APGDState.update^[k] s).image_est i

/-! ### Trainer metrics bookkeeping (`lensless/recon/utils.py`)

`Trainer.__init__` (lines 431-447) creates the metrics dictionary with eight
list-valued entries (all empty) plus scalar entries; `Trainer.evaluate`
(lines 685-688) appends the epoch's train loss to `"LOSS"` and appends each
metric returned by the `benchmark` collaborator to its list, and is the only
code mutating the list-valued entries (`on_epoch_end` only overwrites the
scalar `best_epoch`/`best_eval_score` entries).  When `test_dataset` is
`None`, `evaluate` returns before appending anything. -/

/-- Modelled from the spec: the per-epoch metrics returned by the
`benchmark` collaborator (`lensless/eval/benchmark.py`, not among the
analysed sources) — a fixed set of metric names. -/
structure BenchMetrics where
  MSE : ℚ
  MAE : ℚ
  LPIPS_Vgg : ℚ
  LPIPS_Alex : ℚ
  PSNR : ℚ
  SSIM : ℚ
  ReconstructionError : ℚ

/-- The `Trainer.metrics` dictionary: the eight list-valued entries and the
scalar bookkeeping entries (the remaining constant entries — `n_iter`,
`algorithm`, `metric_for_best_model` — are omitted as they are never
mutated). -/
structure Metrics where
  LOSS : List ℚ
  MSE : List ℚ
  MAE : List ℚ
  LPIPS_Vgg : List ℚ
  LPIPS_Alex : List ℚ
  PSNR : List ℚ
  SSIM : List ℚ
  ReconstructionError : List ℚ
  best_epoch : ℕ
  best_eval_score : ℚ

/-- The metrics dictionary created by `Trainer.__init__` (utils.py lines
431-447): all list entries empty. -/
def Metrics.create : Metrics := ⟨[], [], [], [], [], [], [], [], 0, 0⟩

/-- Embeds the mutation of the metrics dictionary by `Trainer.evaluate`
(utils.py lines 660-661 and 685-688): early return when there is no test
dataset; otherwise append the mean train loss to `LOSS` and each benchmark
metric to its list. -/
def Metrics.evaluate (m : Metrics) (haveTestData : Bool) (meanLoss : ℚ)
    (cur : BenchMetrics) : Metrics :=
  if haveTestData then
    { m with
      LOSS := m.LOSS ++ [meanLoss]
      MSE := m.MSE ++ [cur.MSE]
      MAE := m.MAE ++ [cur.MAE]
      LPIPS_Vgg := m.LPIPS_Vgg ++ [cur.LPIPS_Vgg]
      LPIPS_Alex := m.LPIPS_Alex ++ [cur.LPIPS_Alex]
      PSNR := m.PSNR ++ [cur.PSNR]
      SSIM := m.SSIM ++ [cur.SSIM]
      ReconstructionError := m.ReconstructionError ++ [cur.ReconstructionError] }
  else m

/-- A sequence of epoch boundaries: fold `Metrics.evaluate` over the per-epoch
inputs. -/
def Metrics.runEpochs (m : Metrics) : List (Bool × ℚ × BenchMetrics) → Metrics
  | [] => m
  | (h, l, c) :: es => Metrics.runEpochs (m.evaluate h l c) es

/-- All eight list-valued entries have the same length. -/
def Metrics.equalLens (m : Metrics) : Prop :=
  m.MSE.length = m.LOSS.length ∧ m.MAE.length = m.LOSS.length ∧
  m.LPIPS_Vgg.length = m.LOSS.length ∧ m.LPIPS_Alex.length = m.LOSS.length ∧
  m.PSNR.length = m.LOSS.length ∧ m.SSIM.length = m.LOSS.length ∧
  m.ReconstructionError.length = m.LOSS.length

/-- Each list-valued entry of `m` is a prefix of the corresponding entry of
`m2` (entries are only appended, never shortened or overwritten). -/
def Metrics.prefixOf (m m2 : Metrics) : Prop :=
  List.IsPrefix m.LOSS m2.LOSS ∧ List.IsPrefix m.MSE m2.MSE ∧
  List.IsPrefix m.MAE m2.MAE ∧ List.IsPrefix m.LPIPS_Vgg m2.LPIPS_Vgg ∧
  List.IsPrefix m.LPIPS_Alex m2.LPIPS_Alex ∧ List.IsPrefix m.PSNR m2.PSNR ∧
  List.IsPrefix m.SSIM m2.SSIM ∧
  List.IsPrefix m.ReconstructionError m2.ReconstructionError

theorem evaluate_equalLens (m : Metrics) (h : Bool) (l : ℚ) (c : BenchMetrics)
    (hm : m.equalLens) : (m.evaluate h l c).equalLens := by
  unfold Metrics.evaluate
  split
  · obtain ⟨h1, h2, h3, h4, h5, h6, h7⟩ := hm
    refine ⟨?_, ?_, ?_, ?_, ?_, ?_, ?_⟩ <;>
      simp [List.length_append, h1, h2, h3, h4, h5, h6, h7]
  · exact hm

theorem evaluate_prefixOf (m : Metrics) (h : Bool) (l : ℚ) (c : BenchMetrics) :
    m.prefixOf (m.evaluate h l c) := by
  unfold Metrics.evaluate
  split
  · exact ⟨List.prefix_append _ _, List.prefix_append _ _, List.prefix_append _ _,
      List.prefix_append _ _, List.prefix_append _ _, List.prefix_append _ _,
      List.prefix_append _ _, List.prefix_append _ _⟩
  · exact ⟨List.prefix_refl _, List.prefix_refl _, List.prefix_refl _,
      List.prefix_refl _, List.prefix_refl _, List.prefix_refl _,
      List.prefix_refl _, List.prefix_refl _⟩

theorem prefixOf_trans {m1 m2 m3 : Metrics} (h12 : m1.prefixOf m2)
    (h23 : m2.prefixOf m3) : m1.prefixOf m3 :=
  ⟨h12.1.trans h23.1, h12.2.1.trans h23.2.1, h12.2.2.1.trans h23.2.2.1,
   h12.2.2.2.1.trans h23.2.2.2.1, h12.2.2.2.2.1.trans h23.2.2.2.2.1,
   h12.2.2.2.2.2.1.trans h23.2.2.2.2.2.1,
   h12.2.2.2.2.2.2.1.trans h23.2.2.2.2.2.2.1,
   h12.2.2.2.2.2.2.2.trans h23.2.2.2.2.2.2.2⟩

theorem runEpochs_equalLens_prefixOf (es : List (Bool × ℚ × BenchMetrics)) :
    ∀ m : Metrics, m.equalLens → (Metrics.runEpochs m es).equalLens ∧
      m.prefixOf (Metrics.runEpochs m es) := by
  induction es with
  | nil =>
    intro m hm
    exact ⟨hm, ⟨List.prefix_refl _, List.prefix_refl _, List.prefix_refl _,
      List.prefix_refl _, List.prefix_refl _, List.prefix_refl _,
      List.prefix_refl _, List.prefix_refl _⟩⟩
  | cons e es ih =>
    intro m hm
    obtain ⟨h, l, c⟩ := e
    obtain ⟨ih1, ih2⟩ := ih (m.evaluate h l c) (evaluate_equalLens m h l c hm)
    exact ⟨ih1, prefixOf_trans (evaluate_prefixOf m h l c) ih2⟩

/-! ### Closed-form Tikhonov/Bayer solver (`lensless/recon/tikhonov.py`)

`reconstruction(Y, P, Q, lmbd)` solves, independently for each Bayer channel
`c`, the Tikhonov-regularized least-squares problem
`min_X ‖P X Qᵀ - Y[:,:,c]‖_F² + lmbd ‖X‖_F²` in closed form from the SVDs
`P = UL DL VLᵀ`, `Q = UR DR VRᵀ` computed by `np.linalg.svd(·,
full_matrices=True)`:
`inner = (DLᵀ ULᵀ Yc UR DR) / (outer(SL², SR²) + lmbd)` (elementwise) and
`X_bayer[:,:,c] = VL inner VRᵀ`.  The embedding is over `ℝ`; the external
`np.linalg.svd` is modelled by taking the factors as inputs constrained by
the SVD equations (orthogonality and the factorization), which is what
`np.linalg.svd` guarantees.  The code's `DL` (`np.concatenate((np.diag(SL),
np.zeros([m - n, n])))`) requires `n ≤ m` (with `m < n` the elementwise
division raises a broadcasting error), so the factors are typed tall. -/

/-- The rectangular diagonal factor built by the code from the singular
values: `np.concatenate((np.diag(S), np.zeros([m - n, n])))`.  The scalar
field `K` is any linear ordered field (the code computes over the reals;
witnesses instantiate `K` with `ℚ`). -/
def dpad {K : Type} [LinearOrderedField K] {m n : ℕ} (s : Fin n → K) :
    Matrix (Fin m) (Fin n) K :=
  Matrix.of fun i j => if (i : ℕ) = (j : ℕ) then s j else 0

/-- Embeds `inner = multi_dot([DL.T, UL.T, Yc, UR, DR]) / (np.outer(SL², SR²)
+ np.full(..., lmbd))` (tikhonov.py lines 87-89). -/
def tikInner {K : Type} [LinearOrderedField K] {m n p q : ℕ}
    (UL : Matrix (Fin m) (Fin m) K) (SL : Fin n → K)
    (UR : Matrix (Fin p) (Fin p) K) (SR : Fin q → K)
    (Yc : Matrix (Fin m) (Fin p) K) (lmbd : K) : Matrix (Fin n) (Fin q) K :=
  Matrix.of fun i j =>
    ((dpad (m := m) SL)ᵀ * ULᵀ * Yc * UR * dpad (m := p) SR) i j
      / (SL i ^ 2 * SR j ^ 2 + lmbd)

/-- Embeds `X_bayer[:, :, c] = multi_dot([VL, inner, VR.T])` (tikhonov.py
line 90): the pre-clipping solution of one Bayer channel. -/
def reconChannel {K : Type} [LinearOrderedField K] {m n p q : ℕ}
    (UL : Matrix (Fin m) (Fin m) K) (SL : Fin n → K)
    (VL : Matrix (Fin n) (Fin n) K) (UR : Matrix (Fin p) (Fin p) K)
    (SR : Fin q → K) (VR : Matrix (Fin q) (Fin q) K)
    (Yc : Matrix (Fin m) (Fin p) K) (lmbd : K) : Matrix (Fin n) (Fin q) K :=
  VL * tikInner UL SL UR SR Yc lmbd * VRᵀ

/-- Embeds the per-channel loop of `reconstruction` (tikhonov.py lines
71-90): the pre-clipping 4-channel Bayer result. -/
def reconstructionPre {K : Type} [LinearOrderedField K] {m n p q : ℕ}
    (UL : Matrix (Fin m) (Fin m) K) (SL : Fin n → K)
    (VL : Matrix (Fin n) (Fin n) K) (UR : Matrix (Fin p) (Fin p) K)
    (SR : Fin q → K) (VR : Matrix (Fin q) (Fin q) K) (lmbd : K)
    (Y : Fin m → Fin p → Fin 4 → K) : Fin n → Fin q → Fin 4 → K :=
  fun i j c => reconChannel UL SL VL UR SR VR (Matrix.of fun a b => Y a b c) lmbd i j

/-- Squared Frobenius norm. -/
def frobSq {K : Type} [LinearOrderedField K] {a b : ℕ}
    (A : Matrix (Fin a) (Fin b) K) : K := ∑ i, ∑ j, A i j ^ 2

/-- Frobenius inner product. -/
def frobInner {K : Type} [LinearOrderedField K] {a b : ℕ}
    (A B : Matrix (Fin a) (Fin b) K) : K := ∑ i, ∑ j, A i j * B i j

/-- The Tikhonov objective of one Bayer channel:
`‖P X Qᵀ - Yc‖_F² + lmbd ‖X‖_F²`. -/
def tikObj {K : Type} [LinearOrderedField K] {m n p q : ℕ}
    (P : Matrix (Fin m) (Fin n) K) (Q : Matrix (Fin p) (Fin q) K)
    (Yc : Matrix (Fin m) (Fin p) K) (lmbd : K)
    (X : Matrix (Fin n) (Fin q) K) : K :=
  frobSq (P * X * Qᵀ - Yc) + lmbd * frobSq X

theorem frobInner_eq_trace {K : Type} [LinearOrderedField K] {a b : ℕ}
    (A B : Matrix (Fin a) (Fin b) K) :
    frobInner A B = Matrix.trace (Aᵀ * B) := by
  unfold frobInner Matrix.trace
  simp only [Matrix.diag, Matrix.mul_apply, Matrix.transpose_apply]
  exact Finset.sum_comm

theorem frobInner_comm {K : Type} [LinearOrderedField K] {a b : ℕ}
    (A B : Matrix (Fin a) (Fin b) K) :
    frobInner A B = frobInner B A := by
  unfold frobInner
  exact Finset.sum_congr rfl fun i _ => Finset.sum_congr rfl fun j _ => mul_comm _ _

theorem frobInner_adjoint_mul {K : Type} [LinearOrderedField K] {m n p q : ℕ}
    (P : Matrix (Fin m) (Fin n) K) (Q : Matrix (Fin p) (Fin q) K)
    (E : Matrix (Fin n) (Fin q) K) (R : Matrix (Fin m) (Fin p) K) :
    frobInner (P * E * Qᵀ) R = frobInner E (Pᵀ * R * Q) := by
  rw [frobInner_eq_trace, frobInner_eq_trace]
  rw [Matrix.transpose_mul, Matrix.transpose_mul, Matrix.transpose_transpose]
  rw [Matrix.mul_assoc, Matrix.trace_mul_comm]
  rw [Matrix.mul_assoc, Matrix.mul_assoc, Matrix.mul_assoc]

theorem frobInner_add_left {K : Type} [LinearOrderedField K] {a b : ℕ}
    (A B E : Matrix (Fin a) (Fin b) K) :
    frobInner (A + B) E = frobInner A E + frobInner B E := by
  unfold frobInner
  rw [← Finset.sum_add_distrib]
  refine Finset.sum_congr rfl fun i _ => ?_
  rw [← Finset.sum_add_distrib]
  refine Finset.sum_congr rfl fun j _ => ?_
  simp [Matrix.add_apply, add_mul]

theorem frobInner_smul_left {K : Type} [LinearOrderedField K] {a b : ℕ}
    (c : K) (A E : Matrix (Fin a) (Fin b) K) :
    frobInner (c • A) E = c * frobInner A E := by
  unfold frobInner
  rw [Finset.mul_sum]
  refine Finset.sum_congr rfl fun i _ => ?_
  rw [Finset.mul_sum]
  refine Finset.sum_congr rfl fun j _ => ?_
  simp [Matrix.smul_apply, mul_assoc]

theorem frobInner_zero_left {K : Type} [LinearOrderedField K] {a b : ℕ}
    (E : Matrix (Fin a) (Fin b) K) : frobInner 0 E = 0 := by
  unfold frobInner
  simp

theorem frobSq_add {K : Type} [LinearOrderedField K] {a b : ℕ}
    (A B : Matrix (Fin a) (Fin b) K) :
    frobSq (A + B) = frobSq A + 2 * frobInner A B + frobSq B := by
  unfold frobSq frobInner
  rw [Finset.mul_sum, ← Finset.sum_add_distrib, ← Finset.sum_add_distrib]
  refine Finset.sum_congr rfl fun i _ => ?_
  rw [Finset.mul_sum, ← Finset.sum_add_distrib, ← Finset.sum_add_distrib]
  refine Finset.sum_congr rfl fun j _ => ?_
  simp only [Matrix.add_apply]
  ring

theorem frobSq_nonneg {K : Type} [LinearOrderedField K] {a b : ℕ}
    (A : Matrix (Fin a) (Fin b) K) : 0 ≤ frobSq A :=
  Finset.sum_nonneg fun i _ => Finset.sum_nonneg fun j _ => sq_nonneg _

theorem frobSq_eq_zero {K : Type} [LinearOrderedField K] {a b : ℕ}
    (A : Matrix (Fin a) (Fin b) K) (h : frobSq A = 0) : A = 0 := by
  ext i j
  have hrow : ∀ i ∈ Finset.univ, (0:K) ≤ ∑ j, A i j ^ 2 :=
    fun i _ => Finset.sum_nonneg fun j _ => sq_nonneg _
  have h1 : ∑ j, A i j ^ 2 = 0 :=
    (Finset.sum_eq_zero_iff_of_nonneg hrow).mp h i (Finset.mem_univ i)
  have h2 : A i j ^ 2 = 0 :=
    (Finset.sum_eq_zero_iff_of_nonneg fun j _ => sq_nonneg _).mp h1 j (Finset.mem_univ j)
  have h3 := pow_eq_zero_iff (n := 2) (by norm_num) |>.mp h2
  simpa using h3

theorem mul_cancel_orth {K : Type} [LinearOrderedField K] {k l : ℕ}
    (A : Matrix (Fin k) (Fin k) K) (hA : Aᵀ * A = 1)
    (X : Matrix (Fin k) (Fin l) K) : Aᵀ * (A * X) = X := by
  rw [← Matrix.mul_assoc, hA, Matrix.one_mul]

theorem dpadT_dpad {K : Type} [LinearOrderedField K] {m n : ℕ} (hmn : n ≤ m)
    (s : Fin n → K) :
    (dpad (m := m) s)ᵀ * dpad s = Matrix.diagonal (fun j => s j ^ 2) := by
  ext j k
  simp only [Matrix.mul_apply, Matrix.transpose_apply, dpad, Matrix.of_apply,
    Matrix.diagonal_apply]
  by_cases hjk : j = k
  · subst hjk
    rw [Finset.sum_eq_single (⟨(j : ℕ), lt_of_lt_of_le j.isLt hmn⟩ : Fin m)]
    · simp [pow_two]
    · intro i _ hi
      have hij : (i : ℕ) ≠ (j : ℕ) := fun hc => hi (Fin.ext hc)
      simp [hij]
    · intro h; exact absurd (Finset.mem_univ _) h
  · rw [Finset.sum_eq_zero, if_neg hjk]
    intro i _
    by_cases h1 : (i : ℕ) = (j : ℕ)
    · by_cases h2 : (i : ℕ) = (k : ℕ)
      · exact absurd (Fin.ext (h1 ▸ h2 : (j : ℕ) = (k : ℕ))) hjk
      · simp [h2]
    · simp [h1]

theorem svd_gram {K : Type} [LinearOrderedField K] {m n : ℕ} (hmn : n ≤ m)
    (P : Matrix (Fin m) (Fin n) K) (UL : Matrix (Fin m) (Fin m) K)
    (SL : Fin n → K) (VL : Matrix (Fin n) (Fin n) K)
    (hPsvd : P = UL * dpad SL * VLᵀ) (hUL : ULᵀ * UL = 1) :
    Pᵀ * P = VL * Matrix.diagonal (fun j => SL j ^ 2) * VLᵀ := by
  subst hPsvd
  simp only [Matrix.transpose_mul, Matrix.transpose_transpose, Matrix.mul_assoc]
  rw [mul_cancel_orth UL hUL]
  rw [← Matrix.mul_assoc (dpad (m := m) SL)ᵀ (dpad SL) VLᵀ, dpadT_dpad hmn]

theorem reconChannel_normal {K : Type} [LinearOrderedField K] {m n p q : ℕ}
    (P : Matrix (Fin m) (Fin n) K) (Q : Matrix (Fin p) (Fin q) K)
    (UL : Matrix (Fin m) (Fin m) K) (SL : Fin n → K) (VL : Matrix (Fin n) (Fin n) K)
    (UR : Matrix (Fin p) (Fin p) K) (SR : Fin q → K) (VR : Matrix (Fin q) (Fin q) K)
    (Yc : Matrix (Fin m) (Fin p) K) (lmbd : K)
    (hmn : n ≤ m) (hpq : q ≤ p)
    (hPsvd : P = UL * dpad SL * VLᵀ) (hUL : ULᵀ * UL = 1) (hVL : VLᵀ * VL = 1)
    (hQsvd : Q = UR * dpad SR * VRᵀ) (hUR : URᵀ * UR = 1) (hVR : VRᵀ * VR = 1)
    (hl : 0 < lmbd) :
    Pᵀ * P * reconChannel UL SL VL UR SR VR Yc lmbd * (Qᵀ * Q)
      + lmbd • reconChannel UL SL VL UR SR VR Yc lmbd = Pᵀ * Yc * Q := by
  have hPtP := svd_gram hmn P UL SL VL hPsvd hUL
  have hQtQ := svd_gram hpq Q UR SR VR hQsvd hUR
  have step1 : Pᵀ * P * (VL * tikInner UL SL UR SR Yc lmbd * VRᵀ) * (Qᵀ * Q)
      = VL * (Matrix.diagonal (fun j => SL j ^ 2) * tikInner UL SL UR SR Yc lmbd
          * Matrix.diagonal (fun j => SR j ^ 2)) * VRᵀ := by
    rw [hPtP, hQtQ]
    simp only [Matrix.mul_assoc]
    rw [mul_cancel_orth VL hVL, mul_cancel_orth VR hVR]
  have step2 : lmbd • (VL * tikInner UL SL UR SR Yc lmbd * VRᵀ)
      = VL * (lmbd • tikInner UL SL UR SR Yc lmbd) * VRᵀ := by
    rw [Matrix.mul_smul, Matrix.smul_mul]
  have step4 : Matrix.diagonal (fun j => SL j ^ 2) * tikInner UL SL UR SR Yc lmbd
        * Matrix.diagonal (fun j => SR j ^ 2) + lmbd • tikInner UL SL UR SR Yc lmbd
      = (dpad (m := m) SL)ᵀ * ULᵀ * Yc * UR * dpad (m := p) SR := by
    ext i j
    have hd : SL i ^ 2 * SR j ^ 2 + lmbd ≠ 0 :=
      ne_of_gt (add_pos_of_nonneg_of_pos (mul_nonneg (sq_nonneg _) (sq_nonneg _)) hl)
    simp only [Matrix.add_apply, Matrix.smul_apply, Matrix.mul_diagonal,
      Matrix.diagonal_mul, tikInner, Matrix.of_apply, smul_eq_mul]
    field_simp
    ring
  have step5 : Pᵀ * Yc * Q
      = VL * ((dpad (m := m) SL)ᵀ * ULᵀ * Yc * UR * dpad (m := p) SR) * VRᵀ := by
    rw [hPsvd, hQsvd]
    simp only [Matrix.transpose_mul, Matrix.transpose_transpose, Matrix.mul_assoc]
  show Pᵀ * P * (VL * tikInner UL SL UR SR Yc lmbd * VRᵀ) * (Qᵀ * Q)
      + lmbd • (VL * tikInner UL SL UR SR Yc lmbd * VRᵀ) = Pᵀ * Yc * Q
  rw [step1, step2, ← Matrix.add_mul, ← Matrix.mul_add, step4]
  exact step5.symm

theorem tikObj_expand {K : Type} [LinearOrderedField K] {m n p q : ℕ}
    (P : Matrix (Fin m) (Fin n) K) (Q : Matrix (Fin p) (Fin q) K)
    (Yc : Matrix (Fin m) (Fin p) K) (lmbd : K)
    (X E : Matrix (Fin n) (Fin q) K) :
    tikObj P Q Yc lmbd (X + E)
      = tikObj P Q Yc lmbd X
        + 2 * frobInner (Pᵀ * (P * X * Qᵀ - Yc) * Q + lmbd • X) E
        + (frobSq (P * E * Qᵀ) + lmbd * frobSq E) := by
  unfold tikObj
  have h1 : P * (X + E) * Qᵀ - Yc = (P * X * Qᵀ - Yc) + P * E * Qᵀ := by
    rw [Matrix.mul_add, Matrix.add_mul]
    abel
  rw [h1, frobSq_add, frobSq_add, frobInner_add_left, frobInner_smul_left]
  have h2 : frobInner (P * X * Qᵀ - Yc) (P * E * Qᵀ)
      = frobInner (Pᵀ * (P * X * Qᵀ - Yc) * Q) E := by
    rw [frobInner_comm, frobInner_adjoint_mul]
    exact frobInner_comm _ _
  rw [h2]
  ring

/-! ## Theorems for claims C3, C4, C6, C8 -/

/-- C8: for every 4-channel Bayer array (channel order blue, green-blue,
green-red, red), the pre-normalization RGB output of `bayer2rgb` has blue
output channel equal to Bayer channel 0, green output channel equal to the
elementwise average of Bayer channels 1 and 2, and red output channel equal
to Bayer channel 3. -/
theorem bayer2rgb_channels {h w : ℕ} (X : Fin h → Fin w → Fin 4 → ℚ)
    (i : Fin h) (j : Fin w) :
    bayer2rgbRaw X i j 2 = X i j 0 ∧
    bayer2rgbRaw X i j 1 = (1 / 2) * (X i j 1 + X i j 2) ∧
    bayer2rgbRaw X i j 0 = X i j 3 := by
  refine ⟨rfl, rfl, rfl⟩

/-- C3: for every APGD solver state, every abstract update step and every
iteration count `n`, the image returned by `apply(n)` has no negative entries
and has exactly the `(H, W, C)` shape of the PSF (expressed by its type
`Fin H → Fin W → Fin C → ℚ`), for any measurement and penalties (absorbed in
the abstract state and step). -/
theorem apgd_apply_nonneg {S : Type} {H W C : ℕ} (step : S → S)
    (est : S → Fin (H * W * C) → ℚ) (n : ℕ) (s : S)
    (i : Fin H) (j : Fin W) (c : Fin C) :
    0 ≤ apgdApply step est n s i j c := by
  unfold apgdApply formImage
  split
  · exact le_refl 0
  · next hneg => exact le_of_not_gt hneg

/-- C4 (counter-evaluation): constructing an APGD solver with a proximal
penalty whose construction raises `ValueError` — an unsupported identifier —
does NOT signal an error: construction completes (`Except.ok`) with the
`_prox_penalty` attribute left unassigned (`none`), the `except ValueError:
print("Unexpected prior.")` branch. -/
theorem proxPenaltyInit_valueError_swallowed :
    proxPenaltyInit 1 .functionalValueError = .ok none ∧
    ∀ lam : ℚ, proxPenaltyInit lam .functionalValueError ≠ .error .typeError ∧
      proxPenaltyInit lam .functionalValueError ≠ .error .valueError := by
  exact ⟨rfl, fun lam => ⟨fun h => by simp [proxPenaltyInit] at h,
    fun h => by simp [proxPenaltyInit] at h⟩⟩

/-- C6 (counter-evaluation): with `skip_NAN = True` and no trainable mask
(`mask = None`), the training step raises `AttributeError` (from
`self.mask.parameters()`) instead of skipping the step and continuing — both
with gradient clipping configured (the default `clip_grad=1.0`) and without
it, and in particular even when a recon gradient is NaN. -/
theorem trainStepGrad_mask_none_raises :
    trainStepGrad true (some 1) id id [⟨0, true⟩] none = .error .attributeError ∧
    trainStepGrad true none id id [⟨0, true⟩] none = .error .attributeError ∧
    trainStepGrad true none id id [⟨0, false⟩] none = .error .attributeError := by
  exact ⟨rfl, rfl, rfl⟩

/-- C1 (counter-evaluation): the adjoint identity fails on the code.  For the
2 × 4 × 1 PSF `psf2x4` (padded canvas 3 × 8, odd padded height, where the
`ifftshift` used by both `__call__` and `adjoint` is not the inverse shift the
transpose requires), the operator built by `RealFFTConvolve2D.construct`
gives `⟨apply(x), y⟩ = 1` but `⟨x, adjoint(y)⟩ = 0` in exact arithmetic. -/
theorem adjoint_identity_fails_on_odd_padding :
    dotIm (((RealFFTConvolve2D.construct psf2x4).call imgX).2) imgY = 1 ∧
    dotIm imgX (((RealFFTConvolve2D.construct psf2x4).adjoint imgY).2) = 0 := by
  constructor <;> decide

/-- C7: for every `H × W × C` PSF, the padded buffer of the constructed
operator has spatial shape `next_fast_len(2H-1) × next_fast_len(2W-1)`, each
dimension at least `2·(filter dimension) - 1`; and the padded shape, the
start indices and the precomputed frequency-domain filter are all left
unchanged by every subsequent `__call__`/`adjoint` invocation. -/
theorem conv_padded_shape_fixed {R : Type} [CommRing R] {H W C : ℕ}
    (filter : Fin H → Fin W → Fin C → R) :
    ((RealFFTConvolve2D.construct filter).ph = next_fast_len (2 * H - 1) ∧
     (RealFFTConvolve2D.construct filter).pw = next_fast_len (2 * W - 1) ∧
     2 * H - 1 ≤ (RealFFTConvolve2D.construct filter).ph ∧
     2 * W - 1 ≤ (RealFFTConvolve2D.construct filter).pw) ∧
    ∀ (o : RealFFTConvolve2D R H W C) (x y : Fin H → Fin W → Fin C → R),
      ((o.call x).1.ph = o.ph ∧ (o.call x).1.pw = o.pw ∧
       (o.call x).1.startH = o.startH ∧ (o.call x).1.startW = o.startW ∧
       (o.call x).1.Hfreq = o.Hfreq) ∧
      ((o.adjoint y).1.ph = o.ph ∧ (o.adjoint y).1.pw = o.pw ∧
       (o.adjoint y).1.startH = o.startH ∧ (o.adjoint y).1.startW = o.startW ∧
       (o.adjoint y).1.Hfreq = o.Hfreq) :=
  ⟨⟨rfl, rfl, le_next_fast_len _, le_next_fast_len _⟩,
   fun _ _ _ => ⟨⟨rfl, rfl, rfl, rfl, rfl⟩, ⟨rfl, rfl, rfl, rfl, rfl⟩⟩⟩

/-- C10: for every PSF and every sequence of `__call__`/`adjoint` invocations
on the constructed operator, the shared padded scratch buffer stays zero
outside the central filter-footprint window (it is zeroed once at
construction and only the footprint is rewritten), and consequently every
output in the sequence equals the result computed from a fresh zero canvas. -/
theorem conv_scratch_buffer_frame {R : Type} [CommRing R] {H W C : ℕ}
    (filter : Fin H → Fin W → Fin C → R) (ops : List (ConvCall R H W C)) :
    outsideZero (runCalls (RealFFTConvolve2D.construct filter) ops).1 ∧
    (runCalls (RealFFTConvolve2D.construct filter) ops).2
      = ops.map (pureResult (RealFFTConvolve2D.construct filter)) :=
  runCalls_pure ops (RealFFTConvolve2D.construct filter) (fun _ _ _ _ => rfl)

/-- C5: for every APGD solver with bound data `d` (its Pycsou solver was
built by `set_data` from the same problem, then stepped arbitrarily), every
iteration count `k`: `reset()` followed by `apply(k)` produces the same
output image as a freshly constructed solver with the same PSF and
configuration (hence the same `problem` map) given `set_data(d)` then
`apply(k)`. -/
theorem apgd_reset_eq_fresh {n : ℕ}
    (problem : (Fin n → ℚ) → (((Fin n → ℚ) × (Fin n → ℚ) × ℕ → (Fin n → ℚ) × (Fin n → ℚ) × ℕ)
      × ((Fin n → ℚ) × (Fin n → ℚ) × ℕ)))
    (d : Fin n → ℚ) (s : APGDState n) (a : PycAPGD (Fin n → ℚ)) (k : ℕ)
    (hdata : s.data = some d) (hs : s.apgd = some a)
    (hstep : a.stepFn = (problem d).1) (hinit : a.init = (problem d).2) :
    APGDState.applyN k s.reset
      = APGDState.applyN k (APGDState.set_data problem d (APGDState.fresh n)) := by
  have key : s.reset = APGDState.set_data problem d (APGDState.fresh n) := by
    obtain ⟨sd, sap, sie⟩ := s
    obtain ⟨af, ast, ai⟩ := a
    cases hs
    simp only [APGDState.reset, APGDState.set_data, APGDState.fresh, Option.map,
      PycAPGD.reset, PycAPGD.mk0]
    simp only at hdata hstep hinit
    rw [hdata, hstep, hinit]
  rw [key]

/-- C5 witness: a concrete instantiation (pixel count 1, a problem whose
iteration adds the data, two steps taken before the reset). -/
theorem apgd_reset_eq_fresh_witness :
    APGDState.applyN 2
      (APGDState.reset
        (APGDState.update
          (APGDState.set_data
            (fun d => (fun st => (fun i => st.1 i + d i, st.2.1, st.2.2 + 1),
              ((fun _ => 0), (fun _ => 0), 0)))
            (fun _ => 1) (APGDState.fresh 1))))
      = APGDState.applyN 2
        (APGDState.set_data
          (fun d => (fun st => (fun i => st.1 i + d i, st.2.1, st.2.2 + 1),
            ((fun _ => 0), (fun _ => 0), 0)))
          (fun _ => 1) (APGDState.fresh 1)) :=
  apgd_reset_eq_fresh
    (fun d => (fun st => (fun i => st.1 i + d i, st.2.1, st.2.2 + 1),
      ((fun _ => 0), (fun _ => 0), 0)))
    (fun _ => 1) _ _ 2 rfl rfl rfl rfl

/-- C9: along every sequence of completed `Trainer.evaluate` calls starting
from the metrics dictionary created by `Trainer.__init__`, all list-valued
entries of the metrics dictionary have equal length after every epoch
boundary, and every list-valued entry of any earlier state is a prefix of
the corresponding entry of any later state (entries are only appended,
never shortened or overwritten). -/
theorem metrics_append_only (es tail : List (Bool × ℚ × BenchMetrics)) :
    (Metrics.runEpochs Metrics.create es).equalLens ∧
    (Metrics.runEpochs Metrics.create es).prefixOf
      (Metrics.runEpochs (Metrics.runEpochs Metrics.create es) tail) := by
  have hinit : Metrics.create.equalLens :=
    ⟨rfl, rfl, rfl, rfl, rfl, rfl, rfl⟩
  obtain ⟨h1, _⟩ := runEpochs_equalLens_prefixOf es Metrics.create hinit
  obtain ⟨_, h2⟩ := runEpochs_equalLens_prefixOf tail _ h1
  exact ⟨h1, h2⟩

/-- C2: for every measurement channel `Yc`, factor matrices `P`, `Q` (no
full-rank assumption; typed tall, which is the case the code runs on), any
SVDs of `P` and `Q` as computed by `np.linalg.svd(·, full_matrices=True)`,
and any regularization weight `lmbd > 0`: the closed-form solver's
pre-clipping channel result is the unique minimizer of
`‖P X Qᵀ - Yc‖_F² + lmbd ‖X‖_F²`; moreover channel `c` of the 4-channel
result depends only on channel `c` of `Y` (and `P`, `Q`, `lmbd`) — channels
are solved independently. -/
theorem reconstruction_channel_minimizer {K : Type} [LinearOrderedField K]
    {m n p q : ℕ}
    (P : Matrix (Fin m) (Fin n) K) (Q : Matrix (Fin p) (Fin q) K)
    (UL : Matrix (Fin m) (Fin m) K) (SL : Fin n → K) (VL : Matrix (Fin n) (Fin n) K)
    (UR : Matrix (Fin p) (Fin p) K) (SR : Fin q → K) (VR : Matrix (Fin q) (Fin q) K)
    (Yc : Matrix (Fin m) (Fin p) K) (lmbd : K)
    (hmn : n ≤ m) (hpq : q ≤ p)
    (hPsvd : P = UL * dpad SL * VLᵀ) (hUL : ULᵀ * UL = 1) (hVL : VLᵀ * VL = 1)
    (hQsvd : Q = UR * dpad SR * VRᵀ) (hUR : URᵀ * UR = 1) (hVR : VRᵀ * VR = 1)
    (hl : 0 < lmbd) :
    (∀ Z : Matrix (Fin n) (Fin q) K,
        tikObj P Q Yc lmbd (reconChannel UL SL VL UR SR VR Yc lmbd)
            ≤ tikObj P Q Yc lmbd Z ∧
          (tikObj P Q Yc lmbd Z
              = tikObj P Q Yc lmbd (reconChannel UL SL VL UR SR VR Yc lmbd) →
            Z = reconChannel UL SL VL UR SR VR Yc lmbd)) ∧
    ∀ (Y : Fin m → Fin p → Fin 4 → K) (i : Fin n) (j : Fin q) (c : Fin 4),
        reconstructionPre UL SL VL UR SR VR lmbd Y i j c
          = reconChannel UL SL VL UR SR VR (Matrix.of fun r s => Y r s c) lmbd i j := by
  have hNE := reconChannel_normal P Q UL SL VL UR SR VR Yc lmbd hmn hpq
    hPsvd hUL hVL hQsvd hUR hVR hl
  refine ⟨fun Z => ?_, fun Y i j c => rfl⟩
  set X := reconChannel UL SL VL UR SR VR Yc lmbd with hX
  set E := Z - X with hE
  have hZX : Z = X + E := by rw [hE]; abel
  have hgrad : Pᵀ * (P * X * Qᵀ - Yc) * Q + lmbd • X = 0 := by
    have hx : Pᵀ * (P * X * Qᵀ - Yc) * Q = Pᵀ * P * X * (Qᵀ * Q) - Pᵀ * Yc * Q := by
      rw [Matrix.mul_sub, Matrix.sub_mul]
      congr 1
      simp only [Matrix.mul_assoc]
    rw [hx, sub_add_eq_add_sub, hNE, sub_self]
  have hexp := tikObj_expand P Q Yc lmbd X E
  rw [hgrad, frobInner_zero_left, mul_zero, add_zero, ← hZX] at hexp
  constructor
  · rw [hexp]
    have hnn : 0 ≤ frobSq (P * E * Qᵀ) + lmbd * frobSq E :=
      add_nonneg (frobSq_nonneg _) (mul_nonneg hl.le (frobSq_nonneg _))
    linarith
  · intro heq
    rw [hexp] at heq
    have hr : frobSq (P * E * Qᵀ) + lmbd * frobSq E = 0 := by linarith
    have h1 := frobSq_nonneg (P * E * Qᵀ)
    have h2 := frobSq_nonneg E
    have h3 : lmbd * frobSq E ≤ 0 := by linarith
    have h4 : 0 ≤ lmbd * frobSq E := mul_nonneg hl.le h2
    have h5 : lmbd * frobSq E = 0 := le_antisymm h3 h4
    have hE0 : frobSq E = 0 := (mul_eq_zero.mp h5).resolve_left (ne_of_gt hl)
    have hEz : E = 0 := frobSq_eq_zero E hE0
    rw [hZX, hEz, add_zero]

/-- The 1 × 1 identity matrix over `ℚ`, used by the C2 witness. -/
def oneM : Matrix (Fin 1) (Fin 1) ℚ := 1

/-- The constant-one singular-value vector, used by the C2 witness. -/
def oneS : Fin 1 → ℚ := fun _ => 1

theorem dpad_one_eq_one : dpad (m := 1) oneS = 1 := by
  ext i j
  fin_cases i
  fin_cases j
  simp [dpad, oneS, Matrix.one_apply]

/-- C2 witness: the 1 × 1 identity instance (`P = Q = UL = VL = UR = VR = 1`,
unit singular values, `Yc = 1`, `lmbd = 1`) satisfies every hypothesis of
`reconstruction_channel_minimizer`. -/
theorem reconstruction_channel_minimizer_witness :
    (∀ Z : Matrix (Fin 1) (Fin 1) ℚ,
        tikObj oneM oneM oneM 1 (reconChannel oneM oneS oneM oneM oneS oneM oneM 1)
            ≤ tikObj oneM oneM oneM 1 Z ∧
          (tikObj oneM oneM oneM 1 Z
              = tikObj oneM oneM oneM 1
                  (reconChannel oneM oneS oneM oneM oneS oneM oneM 1) →
            Z = reconChannel oneM oneS oneM oneM oneS oneM oneM 1)) ∧
    ∀ (Y : Fin 1 → Fin 1 → Fin 4 → ℚ) (i j : Fin 1) (c : Fin 4),
        reconstructionPre oneM oneS oneM oneM oneS oneM 1 Y i j c
          = reconChannel oneM oneS oneM oneM oneS oneM
              (Matrix.of fun r s => Y r s c) 1 i j :=
  reconstruction_channel_minimizer oneM oneM oneM oneS oneM oneM oneS oneM oneM 1
    (le_refl 1) (le_refl 1)
    (by rw [dpad_one_eq_one]; simp [oneM])
    (by simp [oneM]) (by simp [oneM])
    (by rw [dpad_one_eq_one]; simp [oneM])
    (by simp [oneM]) (by simp [oneM])
    one_pos

end DiffuserCam
